import Mathlib

/-!
Shallow embedding of the range-preserving structured-text parser and
keypath range extractor of the tlsn-revolut repository (src/ast.rs,
src/request.rs, src/response.rs), together with theorems settling the
specification claims about it.

Rust `Range<usize>` is modelled as a pair of naturals (field `end` is
renamed `stop`, a Lean keyword). Rust `HashMap` values are modelled as
association lists carrying the map's iteration order, with `insert`
replacing the value of an existing key (last write wins). A Rust panic
(`unreachable!` / `expect`, and checked-arithmetic overflow) is modelled
as an `Except`-error carrying the panic message, kept in a type distinct
from the `&'static str` domain errors returned through `Result`.
-/

namespace TlsnRevolut

/-- Model of `Range<usize>`: half-open byte interval `start..stop`. -/
structure Range where
  start : Nat
  stop : Nat
deriving DecidableEq, Repr

/-- Model of a Rust panic: a hard failure carrying the panic message,
distinct from the `String` domain errors that flow through `Result`. -/
structure Panic where
  msg : String
deriving DecidableEq, Repr

/-- `RangedHeader` from src/ast.rs: one parsed header line. -/
structure RangedHeader where
  range : Range
  _value : String
deriving DecidableEq, Repr

mutual
/-- `RangedValue` from src/ast.rs: a byte-range-annotated JSON-like value.
Children of `Array`/`Object` are carried by the mutual list types so that
all recursion over the tree is structural. -/
inductive RangedValue where
  | Null : RangedValue
  | Bool (range : Range) (_value : Bool) : RangedValue
  | Number (range : Range) (_value : Float) : RangedValue
  | String (range : Range) (_value : String) : RangedValue
  | Array (range : Range) (value : RVList) : RangedValue
  | Object (range : Range) (value : RVEntries) : RangedValue

/-- Children list of an `Array` variant (Rust `Vec<RangedValue>`). -/
inductive RVList where
  | nil : RVList
  | cons (hd : RangedValue) (tl : RVList) : RVList

/-- Entry list of an `Object` variant (Rust `HashMap<String, RangedValue>`,
in iteration order). -/
inductive RVEntries where
  | nil : RVEntries
  | cons (key : String) (hd : RangedValue) (tl : RVEntries) : RVEntries
end

/-- `RangedValue::get_range` from src/ast.rs: `Null` yields the degenerate
range `0..0`, every other variant returns its stored range. -/
def RangedValue.get_range : RangedValue → Range
  | .Null => ⟨0, 0⟩
  | .Bool range _ => range
  | .Number range _ => range
  | .String range _ => range
  | .Array range _ => range
  | .Object range _ => range

/-- `impl Default for RangedValue` from src/ast.rs: an empty `Object` with
the default (degenerate `0..0`) range. -/
def RangedValue.default : RangedValue :=
  RangedValue.Object ⟨0, 0⟩ RVEntries.nil

/-- `CommonRuleType` from src/ast.rs. -/
inductive CommonRuleType where
  | Object
  | Array
  | String
  | Number
  | Boolean
  | Null
  | Other
deriving DecidableEq, Repr

mutual
/-- Model of a pest `Pair<R>`: its rule, span (start and end byte offsets),
matched text (`as_str`), and inner pairs (`into_inner`). -/
inductive Node (R : Type) where
  | mk (rule : R) (start : Nat) (stop : Nat) (text : String) (children : NodeList R)

/-- Inner pairs of a `Node`, in document order. -/
inductive NodeList (R : Type) where
  | nil : NodeList R
  | cons (hd : Node R) (tl : NodeList R) : NodeList R
end

/-- The rule of a node (`pair.as_rule()`). -/
def Node.rule : Node R → R
  | .mk r _ _ _ _ => r

/-- Span start of a node (`pair.as_span().start()`). -/
def Node.start : Node R → Nat
  | .mk _ s _ _ _ => s

/-- Span end of a node (`pair.as_span().end()`). -/
def Node.stop : Node R → Nat
  | .mk _ _ e _ _ => e

/-- Matched text of a node (`pair.as_str()`). -/
def Node.text : Node R → String
  | .mk _ _ _ t _ => t

/-- Inner pairs of a node (`pair.into_inner()`). -/
def Node.children : Node R → NodeList R
  | .mk _ _ _ _ cs => cs

/-- The `CommonRule` trait from src/ast.rs: classification of a grammar's
rule type into the shared `CommonRuleType` vocabulary. -/
class CommonRule (R : Type) where
  rule_type : R → CommonRuleType

/-- `CommonParser::parse_header` from src/ast.rs: expects a key child then a
value child; fails with a domain error (`&'static str`) when either is
absent; on success returns the key text and a `RangedHeader` spanning the
whole header node whose value is the value child's text. -/
def parse_header {R : Type} (pair : Node R) : Except String (String × RangedHeader) :=
  let range : Range := ⟨pair.start, pair.stop⟩
  match pair.children with
  | .nil => .error "Missing key in header"
  | .cons _ .nil => .error "Missing value in header"
  | .cons k (.cons v _) => .ok (k.text, ⟨range, v.text⟩)

/-- Rust `str::parse::<bool>`: only the exact texts `true` and `false`
parse. -/
def rustParseBool (s : String) : Option Bool :=
  if s = "true" then some true
  else if s = "false" then some false
  else none

/-- `HashMap::insert` on the association-list model: replace the value of
an existing key in place (last write wins), otherwise append. -/
def insertEntry : RVEntries → String → RangedValue → RVEntries
  | .nil, k, v => .cons k v .nil
  | .cons k' v' tl, k, v =>
      if k' = k then .cons k' v tl else .cons k' v' (insertEntry tl k v)

mutual
/-- `CommonParser::parse_value` from src/ast.rs. Branches on the node's
classified rule type; `Other` is `unreachable!` (a panic). The Rust
`f64` parser is abstracted as the parameter `pf` (`_value` is the parsed
float, or the default `0.0` when parsing fails). -/
def parse_value (pf : String → Option Float) [CommonRule R] : Node R → Except Panic RangedValue
  | .mk rule s e text children =>
      match CommonRule.rule_type rule with
      | .Object =>
          (parse_entries pf children .nil).map (fun m => .Object ⟨s, e⟩ m)
      | .Array =>
          (parse_values pf children).map (fun vs => .Array ⟨s, e⟩ vs)
      | .String =>
          .ok (.String ⟨s, e⟩ (match children with
            | .nil => ""
            | .cons c _ => c.text))
      | .Number => .ok (.Number ⟨s, e⟩ ((pf text).getD 0))
      | .Boolean => .ok (.Bool ⟨s, e⟩ ((rustParseBool text).getD false))
      | .Null => .ok .Null
      | .Other => .error ⟨"Unexpected rule in parse_value"⟩

/-- The `collect::<Vec<_>>` of `parse_value` over an `Array` node's inner
pairs: the first panic propagates. -/
def parse_values (pf : String → Option Float) [CommonRule R] : NodeList R → Except Panic RVList
  | .nil => .ok .nil
  | .cons n tl => do
      let v ← parse_value pf n
      let vs ← parse_values pf tl
      .ok (.cons v vs)

/-- The `collect::<HashMap<_, _>>` of `parse_object_entry` over an `Object`
node's inner pairs: entries are parsed in child order and inserted into the
accumulated map, last write winning on duplicate keys. -/
def parse_entries (pf : String → Option Float) [CommonRule R] :
    NodeList R → RVEntries → Except Panic RVEntries
  | .nil, acc => .ok acc
  | .cons n tl, acc => do
      let kv ← parse_object_entry pf n
      parse_entries pf tl (insertEntry acc kv.1 kv.2)

/-- `CommonParser::parse_object_entry` from src/ast.rs: the first child's
first inner child is the literal key, the second child is the entry's
value; a missing child is an `expect` panic. -/
def parse_object_entry (pf : String → Option Float) [CommonRule R] :
    Node R → Except Panic (String × RangedValue)
  | .mk _ _ _ _ .nil => .error ⟨"Missing key in object entry"⟩
  | .mk _ _ _ _ (.cons (.mk _ _ _ _ .nil) _) =>
      .error ⟨"Missing key in object entry"⟩
  | .mk _ _ _ _ (.cons (.mk _ _ _ _ (.cons _ _)) .nil) =>
      .error ⟨"Missing value in object entry"⟩
  | .mk _ _ _ _ (.cons (.mk _ _ _ _ (.cons keyInner _)) (.cons valueNode _)) => do
      let v ← parse_value pf valueNode
      .ok (keyInner.text, v)
end

/-- The panic raised by a checked `usize` subtraction that underflows. -/
def subtractOverflow : Panic :=
  ⟨"attempt to subtract with overflow"⟩

mutual
/-- `Searchable::search_content_by_path` from src/ast.rs: walk the value
tree accumulating, for every object entry whose dotted path is one of the
requested keypaths, the range `(start - key.len() - 3)..end` of the entry.
The `usize` subtraction panics on underflow. -/
def search_content_by_path (keypaths : List String) :
    RangedValue → List String → Except Panic (List Range)
  | .Object _ value, current_path => search_entries keypaths value current_path
  | .Array _ value, current_path => search_items keypaths value current_path
  | _, _ => .ok []

/-- The object-entry loop of `search_content_by_path`: for each entry, the
match hit (if any) is pushed first, then the recursion into the entry's
value with the extended path, then the remaining entries. -/
def search_entries (keypaths : List String) :
    RVEntries → List String → Except Panic (List Range)
  | .nil, _ => .ok []
  | .cons key val tl, current_path => do
      let new_path := current_path ++ [key]
      let path_str := String.intercalate "." new_path
      let hit ← if keypaths.contains path_str then
          if val.get_range.start < key.utf8ByteSize + 3 then
            Except.error subtractOverflow
          else
            Except.ok [⟨val.get_range.start - key.utf8ByteSize - 3, val.get_range.stop⟩]
        else Except.ok ([] : List Range)
      let sub ← search_content_by_path keypaths val new_path
      let rest ← search_entries keypaths tl current_path
      .ok (hit ++ sub ++ rest)

/-- The array-element loop of `search_content_by_path`: recurse into every
element with the unchanged current path. -/
def search_items (keypaths : List String) :
    RVList → List String → Except Panic (List Range)
  | .nil, _ => .ok []
  | .cons item tl, current_path => do
      let sub ← search_content_by_path keypaths item current_path
      let rest ← search_items keypaths tl current_path
      .ok (sub ++ rest)
end

/-- The header loop of `Searchable::get_all_ranges_for_keypaths`: append
`header.range` for every (key, header) whose key is in the requested set. -/
def header_ranges (headers : List (String × RangedHeader))
    (requested : List String) : List Range :=
  headers.foldl
    (fun acc kv => if requested.contains kv.1 then acc ++ [kv.2.range] else acc) []

/-- The default `Searchable::get_additional_ranges` body: no extra ranges. -/
def default_additional_ranges : List Range := []

/-- `Searchable::get_all_ranges_for_keypaths` from src/ast.rs, abstracted
over the three capability accessors of the implementing container:
additional ranges first, then matching header ranges, then the ranges
found by the recursive content search. -/
def get_all_ranges_for_keypaths (additional : List Range)
    (headers : List (String × RangedHeader)) (content : Option RangedValue)
    (keypaths : List String) (headerNames : List String) :
    Except Panic (List Range) :=
  let ranges := additional ++ header_ranges headers headerNames
  match content with
  | none => .ok ranges
  | some c => (search_content_by_path keypaths c []).map (fun r => ranges ++ r)

/-- The `Rule` enum generated from request.pest, as used by src/request.rs:
only `request_line`, `header`, `object` and `array` are inspected by
`TryFrom`, and only the six value rules classify away from `Other`; every
remaining grammar rule behaves identically and is collapsed into `other`. -/
inductive ReqRule where
  | request
  | request_line
  | header
  | object
  | array
  | string
  | number
  | boolean
  | null
  | other
deriving DecidableEq, Repr

/-- `impl CommonRule for Rule` from src/request.rs. -/
instance : CommonRule ReqRule where
  rule_type
    | .object => .Object
    | .array => .Array
    | .string => .String
    | .number => .Number
    | .boolean => .Boolean
    | .null => .Null
    | _ => .Other

/-- The `Rule` enum generated from response.pest, as used by
src/response.rs, collapsed the same way as `ReqRule`. -/
inductive RespRule where
  | response
  | header
  | object
  | array
  | string
  | number
  | boolean
  | null
  | other
deriving DecidableEq, Repr

/-- `impl CommonRule for Rule` from src/response.rs. -/
instance : CommonRule RespRule where
  rule_type
    | .object => .Object
    | .array => .Array
    | .string => .String
    | .number => .Number
    | .boolean => .Boolean
    | .null => .Null
    | _ => .Other

/-- The two failure channels of `TryFrom`: a `Result` domain error
(`&'static str`) or a propagated panic. -/
inductive Failure where
  | err (msg : String)
  | panic (p : Panic)
deriving DecidableEq, Repr

/-- `HashMap::insert` on the header map model: replace in place or append. -/
def insertHeader (hs : List (String × RangedHeader)) (k : String)
    (v : RangedHeader) : List (String × RangedHeader) :=
  match hs with
  | [] => [(k, v)]
  | kv :: tl => if kv.1 = k then (kv.1, v) :: tl else kv :: insertHeader tl k v

/-- `Request` from src/request.rs. -/
structure Request where
  request_line : RangedHeader
  headers : List (String × RangedHeader)
  content : Option RangedValue

/-- The pair loop of `impl TryFrom<Pairs> for Request` from src/request.rs:
threads the request line, header map and content through the pairs. -/
def Request.try_from_loop (pf : String → Option Float) :
    List (Node ReqRule) → Option RangedHeader → List (String × RangedHeader) →
    RangedValue →
    Except Failure (Option RangedHeader × List (String × RangedHeader) × RangedValue)
  | [], rl, hs, c => .ok (rl, hs, c)
  | p :: tl, rl, hs, c =>
      match p.rule with
      | .request_line =>
          Request.try_from_loop pf tl (some ⟨⟨p.start, p.stop⟩, p.text⟩) hs c
      | .header =>
          match parse_header p with
          | .error m => .error (.err m)
          | .ok kv => Request.try_from_loop pf tl rl (insertHeader hs kv.1 kv.2) c
      | .object =>
          match parse_value pf p with
          | .error pn => .error (.panic pn)
          | .ok v => Request.try_from_loop pf tl rl hs v
      | .array =>
          match parse_value pf p with
          | .error pn => .error (.panic pn)
          | .ok v => Request.try_from_loop pf tl rl hs v
      | _ => Request.try_from_loop pf tl rl hs c

/-- `impl TryFrom<Pairs> for Request` from src/request.rs: the content
starts as `RangedValue::default()` and is always wrapped in `Some`; a
missing request line is a domain error. -/
def Request.try_from (pf : String → Option Float) (pairs : List (Node ReqRule)) :
    Except Failure Request := do
  let st ← Request.try_from_loop pf pairs none [] RangedValue.default
  match st.1 with
  | none => .error (.err "Missing request line")
  | some l => .ok ⟨l, st.2.1, some st.2.2⟩

/-- `Response` from src/response.rs. -/
structure Response where
  headers : List (String × RangedHeader)
  content : RangedValue

/-- The pair loop of `impl TryFrom<Pairs> for Response` from
src/response.rs. -/
def Response.try_from_loop (pf : String → Option Float) :
    List (Node RespRule) → List (String × RangedHeader) → RangedValue →
    Except Failure (List (String × RangedHeader) × RangedValue)
  | [], hs, c => .ok (hs, c)
  | p :: tl, hs, c =>
      match p.rule with
      | .header =>
          match parse_header p with
          | .error m => .error (.err m)
          | .ok kv => Response.try_from_loop pf tl (insertHeader hs kv.1 kv.2) c
      | .object =>
          match parse_value pf p with
          | .error pn => .error (.panic pn)
          | .ok v => Response.try_from_loop pf tl hs v
      | .array =>
          match parse_value pf p with
          | .error pn => .error (.panic pn)
          | .ok v => Response.try_from_loop pf tl hs v
      | _ => Response.try_from_loop pf tl hs c

/-- `impl TryFrom<Pairs> for Response` from src/response.rs. -/
def Response.try_from (pf : String → Option Float) (pairs : List (Node RespRule)) :
    Except Failure Response := do
  let st ← Response.try_from_loop pf pairs [] RangedValue.default
  .ok ⟨st.1, st.2⟩

/-- `Searchable::get_headers` for `Request`. -/
def Request.get_headers (r : Request) : List (String × RangedHeader) :=
  r.headers

/-- `Searchable::get_content` for `Request`: `self.content.as_ref()`. -/
def Request.get_content (r : Request) : Option RangedValue :=
  r.content

/-- `Searchable::get_additional_ranges` for `Request`: always exactly the
request-line range. -/
def Request.get_additional_ranges (r : Request) : List Range :=
  [r.request_line.range]

/-- `Searchable::get_all_ranges_for_keypaths` instantiated at `Request`. -/
def Request.get_all_ranges_for_keypaths (r : Request) (keypaths : List String)
    (headerNames : List String) : Except Panic (List Range) :=
  TlsnRevolut.get_all_ranges_for_keypaths r.get_additional_ranges r.get_headers
    r.get_content keypaths headerNames

/-- `Searchable::get_headers` for `Response`. -/
def Response.get_headers (r : Response) : List (String × RangedHeader) :=
  r.headers

/-- `Searchable::get_content` for `Response`: always `Some(&self.content)`. -/
def Response.get_content (r : Response) : Option RangedValue :=
  some r.content

/-- `Searchable::get_additional_ranges` for `Response`: the trait default. -/
def Response.get_additional_ranges (_ : Response) : List Range :=
  default_additional_ranges

/-- `Searchable::get_all_ranges_for_keypaths` instantiated at `Response`. -/
def Response.get_all_ranges_for_keypaths (r : Response) (keypaths : List String)
    (headerNames : List String) : Except Panic (List Range) :=
  TlsnRevolut.get_all_ranges_for_keypaths r.get_additional_ranges r.get_headers
    r.get_content keypaths headerNames

/-- `HashMap::get` on the association-list model: the binding of the first
occurrence of the key. -/
def entryLookup : RVEntries → String → Option RangedValue
  | .nil, _ => none
  | .cons k v tl, k' => if k = k' then some v else entryLookup tl k'

/-- Whether a fallible computation succeeded (`Result::is_ok`). -/
def exceptIsOk {ε α : Type} : Except ε α → Bool
  | .ok _ => true
  | .error _ => false

mutual
/-- Modelled from the spec: the grammar collaborator's guarantee (spec §6
and §3) that every node the tree builder receives has its children's spans
strictly nested within its own span (child start at least parent start + 1
and child end at most parent end − 1, the bracket/brace/quote delimiter
case), recursively. The concrete request.pest / response.pest grammars
that establish this are not part of src/. -/
def Node.WellNested : Node R → Prop
  | .mk _ s e _ children => NodeList.WellNestedIn s e children

/-- All nodes of the list are strictly inside the span `s..e` and are
themselves well-nested. -/
def NodeList.WellNestedIn : Nat → Nat → NodeList R → Prop
  | _, _, .nil => True
  | s, e, .cons n tl =>
      (s + 1 ≤ n.start ∧ n.stop + 1 ≤ e) ∧ Node.WellNested n ∧
        NodeList.WellNestedIn s e tl
end

/-- A value sits strictly inside the range `r` (`Null` is exempt: its
position is not tracked). -/
def withinStrict (r : Range) (v : RangedValue) : Prop :=
  match v with
  | .Null => True
  | _ => r.start + 1 ≤ v.get_range.start ∧ v.get_range.stop + 1 ≤ r.stop

mutual
/-- The containment invariant of spec §8 on a `RangedValue` tree: every
child of an `Array`/`Object` node sits strictly inside its parent's range,
recursively. -/
def Containment : RangedValue → Prop
  | .Array r vs => RVList.ContainedIn r vs
  | .Object r es => RVEntries.ContainedIn r es
  | _ => True

/-- Every value of the list is strictly inside `r` and itself satisfies
containment. -/
def RVList.ContainedIn : Range → RVList → Prop
  | _, .nil => True
  | r, .cons v tl => withinStrict r v ∧ Containment v ∧ RVList.ContainedIn r tl

/-- Every entry value of the list is strictly inside `r` and itself
satisfies containment. -/
def RVEntries.ContainedIn : Range → RVEntries → Prop
  | _, .nil => True
  | r, .cons _ v tl => withinStrict r v ∧ Containment v ∧ RVEntries.ContainedIn r tl
end

/-! ## Theorems -/

/-- Defining equation of `parse_value` on a constructor, as a standalone
rewrite lemma (holds by reduction). -/
theorem parse_value_mk {R : Type} [CommonRule R] (pf : String → Option Float)
    (rule : R) (s e : Nat) (text : String) (children : NodeList R) :
    parse_value pf (.mk rule s e text children) =
      match CommonRule.rule_type rule with
      | .Object =>
          (parse_entries pf children .nil).map (fun m => .Object ⟨s, e⟩ m)
      | .Array =>
          (parse_values pf children).map (fun vs => .Array ⟨s, e⟩ vs)
      | .String =>
          .ok (.String ⟨s, e⟩ (match children with
            | .nil => ""
            | .cons c _ => c.text))
      | .Number => .ok (.Number ⟨s, e⟩ ((pf text).getD 0))
      | .Boolean => .ok (.Bool ⟨s, e⟩ ((rustParseBool text).getD false))
      | .Null => .ok .Null
      | .Other => .error ⟨"Unexpected rule in parse_value"⟩ := rfl

/-- C5: the traversal structure of `search_content_by_path`. Arrays recurse
into every element with the unchanged current path; every scalar returns no
ranges and recurses no further; an object processes its head entry by
first appending the match hit (if any) and then still recursing into the
entry's value with the path extended by the entry's key, before processing
the remaining entries. -/
theorem search_traversal_structure :
    (∀ (keypaths : List String) (r : Range) (v : RangedValue) (tl : RVList)
        (path : List String),
      search_content_by_path keypaths (.Array r (.cons v tl)) path =
        (search_content_by_path keypaths v path).bind (fun sub =>
          (search_content_by_path keypaths (.Array r tl) path).map
            (fun rest => sub ++ rest))) ∧
    (∀ (keypaths : List String) (r : Range) (path : List String),
      search_content_by_path keypaths (.Array r .nil) path = .ok []) ∧
    (∀ (keypaths : List String) (path : List String),
      search_content_by_path keypaths .Null path = .ok []) ∧
    (∀ (keypaths : List String) (r : Range) (b : Bool) (path : List String),
      search_content_by_path keypaths (.Bool r b) path = .ok []) ∧
    (∀ (keypaths : List String) (r : Range) (x : Float) (path : List String),
      search_content_by_path keypaths (.Number r x) path = .ok []) ∧
    (∀ (keypaths : List String) (r : Range) (s : String) (path : List String),
      search_content_by_path keypaths (.String r s) path = .ok []) ∧
    (∀ (keypaths : List String) (r : Range) (key : String) (v : RangedValue)
        (es : RVEntries) (path : List String),
      search_content_by_path keypaths (.Object r (.cons key v es)) path =
        (if keypaths.contains (String.intercalate "." (path ++ [key])) then
            (if v.get_range.start < key.utf8ByteSize + 3 then
              Except.error subtractOverflow
            else
              Except.ok [⟨v.get_range.start - key.utf8ByteSize - 3,
                v.get_range.stop⟩])
          else Except.ok ([] : List Range)).bind (fun hit =>
            (search_content_by_path keypaths v (path ++ [key])).bind (fun sub =>
              (search_content_by_path keypaths (.Object r es) path).map
                (fun rest => hit ++ sub ++ rest)))) := by
  refine ⟨fun keypaths r v tl path => ?_, fun _ _ _ => rfl, fun _ _ => rfl,
    fun _ _ _ _ => rfl, fun _ _ _ _ => rfl, fun _ _ _ _ => rfl,
    fun keypaths r key v es path => ?_⟩
  · show search_items keypaths (.cons v tl) path = _
    rw [search_items,
      show search_content_by_path keypaths (.Array r tl) path =
        search_items keypaths tl path from rfl]
    cases hs : search_content_by_path keypaths v path <;>
      cases ht : search_items keypaths tl path <;> rfl
  · show search_entries keypaths (.cons key v es) path = _
    rw [search_entries,
      show search_content_by_path keypaths (.Object r es) path =
        search_entries keypaths es path from rfl]
    cases hs : search_content_by_path keypaths v (path ++ [key]) <;>
      cases ht : search_entries keypaths es path <;>
        split <;> try rfl
    all_goals split <;> rfl

/-- C7: `parse_header` fails exactly when the first (key) or second
(value) child is absent, and otherwise returns the key child's text
together with a `RangedHeader` whose range spans the entire header node
and whose stored value is the value child's text. -/
theorem parse_header_semantics {R : Type} (pair : Node R) :
    (pair.children = .nil → parse_header pair = .error "Missing key in header") ∧
    (∀ k, pair.children = .cons k .nil →
      parse_header pair = .error "Missing value in header") ∧
    (∀ k v rest, pair.children = .cons k (.cons v rest) →
      parse_header pair = .ok (k.text, ⟨⟨pair.start, pair.stop⟩, v.text⟩)) := by
  refine ⟨fun h => ?_, fun k h => ?_, fun k v rest h => ?_⟩ <;>
    · unfold parse_header
      rw [h]

/-- Witness for C7 at a concrete two-child header node. -/
theorem parse_header_semantics_witness :
    parse_header (Node.mk ReqRule.header 0 17 "Host: example.com"
        (NodeList.cons (Node.mk ReqRule.other 0 4 "Host" NodeList.nil)
          (NodeList.cons (Node.mk ReqRule.other 6 17 "example.com" NodeList.nil)
            NodeList.nil))) =
      .ok ("Host", ⟨⟨0, 17⟩, "example.com"⟩) :=
  (parse_header_semantics (Node.mk ReqRule.header 0 17 "Host: example.com"
        (NodeList.cons (Node.mk ReqRule.other 0 4 "Host" NodeList.nil)
          (NodeList.cons (Node.mk ReqRule.other 6 17 "example.com" NodeList.nil)
            NodeList.nil)))).2.2
    (Node.mk ReqRule.other 0 4 "Host" NodeList.nil)
    (Node.mk ReqRule.other 6 17 "example.com" NodeList.nil) NodeList.nil rfl

/-- C2: a structurally malformed node surfaces as a panic value — an
`Other` node reaching `parse_value`, or an object entry missing its key
token, its key's inner token, or its value — and the panic channel is
disjoint from the domain-error channel of `Result`. -/
theorem malformed_node_surfaced_as_panic {R : Type} [CommonRule R]
    (pf : String → Option Float) :
    (∀ (n : Node R), CommonRule.rule_type n.rule = .Other →
      parse_value pf n = .error ⟨"Unexpected rule in parse_value"⟩) ∧
    (∀ (n : Node R), n.children = .nil →
      parse_object_entry pf n = .error ⟨"Missing key in object entry"⟩) ∧
    (∀ (n : Node R) (k : Node R) (tl : NodeList R),
      n.children = .cons k tl → k.children = .nil →
      parse_object_entry pf n = .error ⟨"Missing key in object entry"⟩) ∧
    (∀ (n : Node R) (k ki : Node R) (kr : NodeList R),
      n.children = .cons k .nil → k.children = .cons ki kr →
      parse_object_entry pf n = .error ⟨"Missing value in object entry"⟩) ∧
    (∀ (p : Panic) (m : String), Failure.panic p ≠ Failure.err m) := by
  refine ⟨fun n h => ?_, fun n h => ?_, fun n k tl h hk => ?_,
    fun n k ki kr h hk => ?_, fun p m => by simp⟩
  · obtain ⟨rule, s, e, text, children⟩ := n
    simp only [Node.rule] at h
    rw [parse_value_mk, h]
  · obtain ⟨rule, s, e, text, children⟩ := n
    simp only [Node.children] at h
    subst h
    rfl
  · obtain ⟨rule, s, e, text, children⟩ := n
    simp only [Node.children] at h
    subst h
    obtain ⟨krule, ks, ke, ktext, kchildren⟩ := k
    simp only [Node.children] at hk
    subst hk
    rfl
  · obtain ⟨rule, s, e, text, children⟩ := n
    simp only [Node.children] at h
    subst h
    obtain ⟨krule, ks, ke, ktext, kchildren⟩ := k
    simp only [Node.children] at hk
    subst hk
    rfl

/-- Witness for C2 at a concrete `Other` node and malformed entry nodes. -/
theorem malformed_node_surfaced_as_panic_witness :
    parse_value (R := ReqRule) (fun _ => none) (.mk .other 2 6 "::::" .nil) =
        .error ⟨"Unexpected rule in parse_value"⟩ ∧
      parse_object_entry (R := ReqRule) (fun _ => none)
          (.mk .other 2 6 "abcd" .nil) = .error ⟨"Missing key in object entry"⟩ :=
  ⟨(malformed_node_surfaced_as_panic (fun _ => none)).1 _ rfl,
    (malformed_node_surfaced_as_panic (fun _ => none)).2.1 _ rfl⟩

/-- C6: scalar semantics of `parse_value`. A `String` node yields the
node's full span and the first inner token's text (empty when there is no
inner token); a `Number` node yields the span text parsed as a 64-bit
float with `0.0` substituted when parsing fails; a `Boolean` node yields
the parsed boolean with `false` substituted when parsing fails; all three
always return a value, never an error. -/
theorem parse_value_scalar_semantics {R : Type} [CommonRule R]
    (pf : String → Option Float) (rule : R) (s e : Nat) (text : String)
    (children : NodeList R) :
    (CommonRule.rule_type rule = .String →
      parse_value pf (.mk rule s e text children) =
        .ok (.String ⟨s, e⟩ (match children with
          | .nil => ""
          | .cons c _ => c.text))) ∧
    (CommonRule.rule_type rule = .Number →
      parse_value pf (.mk rule s e text children) =
        .ok (.Number ⟨s, e⟩ ((pf text).getD 0)) ∧
      (pf text = none →
        parse_value pf (.mk rule s e text children) =
          .ok (.Number ⟨s, e⟩ 0))) ∧
    (CommonRule.rule_type rule = .Boolean →
      parse_value pf (.mk rule s e text children) =
        .ok (.Bool ⟨s, e⟩ ((rustParseBool text).getD false)) ∧
      (rustParseBool text = none →
        parse_value pf (.mk rule s e text children) =
          .ok (.Bool ⟨s, e⟩ false))) := by
  refine ⟨fun h => ?_, fun h => ⟨?_, fun hn => ?_⟩, fun h => ⟨?_, fun hn => ?_⟩⟩ <;>
    rw [parse_value_mk, h] <;> try rw [hn]
  all_goals rfl

/-- Witness for C6: a concrete string node with one inner token, a number
node whose text fails to parse, and a boolean node whose text fails to
parse. -/
theorem parse_value_scalar_semantics_witness :
    parse_value (R := ReqRule) (fun _ => none)
        (.mk .string 0 4 "\x22hi\x22"
          (.cons (.mk .other 1 3 "hi" .nil) .nil)) =
        .ok (.String ⟨0, 4⟩ "hi") ∧
      parse_value (R := ReqRule) (fun _ => none) (.mk .number 5 8 "1e5" .nil) =
        .ok (.Number ⟨5, 8⟩ 0) ∧
      parse_value (R := ReqRule) (fun _ => none) (.mk .boolean 9 12 "tru" .nil) =
        .ok (.Bool ⟨9, 12⟩ false) :=
  ⟨(parse_value_scalar_semantics (fun _ => none) ReqRule.string 0 4 "\x22hi\x22"
      (.cons (.mk .other 1 3 "hi" .nil) .nil)).1 rfl,
    ((parse_value_scalar_semantics (fun _ => none) ReqRule.number 5 8 "1e5"
      .nil).2.1 rfl).2 rfl,
    ((parse_value_scalar_semantics (fun _ => none) ReqRule.boolean 9 12 "tru"
      .nil).2.2 rfl).2 (by rfl)⟩

/-- C1: in `search_content_by_path`, an object entry whose dotted path
exactly equals one of the requested keypaths contributes exactly the range
`(child.range.start - key.length - 3) .. child.range.end`, pushed before
the recursion into the child and the remaining entries. -/
theorem search_match_range_exact (keypaths : List String) (r : Range)
    (key : String) (v : RangedValue) (es : RVEntries) (path : List String)
    (hmatch : keypaths.contains (String.intercalate "." (path ++ [key])) = true)
    (hge : key.utf8ByteSize + 3 ≤ v.get_range.start) :
    search_content_by_path keypaths (.Object r (.cons key v es)) path =
      (search_content_by_path keypaths v (path ++ [key])).bind (fun sub =>
        (search_entries keypaths es path).map (fun rest =>
          ⟨v.get_range.start - key.utf8ByteSize - 3, v.get_range.stop⟩ ::
            (sub ++ rest))) := by
  show search_entries keypaths (.cons key v es) path = _
  rw [search_entries]
  rw [if_pos (by simp_all), if_neg (by omega)]
  cases hs : search_content_by_path keypaths v (path ++ [key]) <;>
    cases ht : search_entries keypaths es path <;> rfl

/-- Witness for C1 on the spec example `{"a":{"b":1,"c":2}}` at the
matched entry `b` of the inner object (value range `10..11`, key length
1, so the produced range is `6..11`). -/
theorem search_match_range_exact_witness :
    search_content_by_path ["a.b"]
        (.Object ⟨5, 18⟩ (.cons "b" (.Number ⟨10, 11⟩ 0) .nil)) ["a"] =
      (search_content_by_path ["a.b"] (.Number ⟨10, 11⟩ 0) (["a"] ++ ["b"])).bind
        (fun sub => (search_entries ["a.b"] .nil ["a"]).map
          (fun rest => ⟨6, 11⟩ :: (sub ++ rest))) :=
  search_match_range_exact ["a.b"] ⟨5, 18⟩ "b" (.Number ⟨10, 11⟩ 0) .nil ["a"]
    (by rfl) (by decide)

/-- C9: the `usize` subtraction `start - key.len() - 3` in
`search_content_by_path` underflows — a panic, so the search aborts
instead of producing a range — whenever a matched entry's value range
starts earlier than `key.len() + 3`; in particular a matched entry whose
value is `Null` (degenerate range `0..0`) always panics. -/
theorem search_subtraction_underflow :
    (∀ (keypaths : List String) (r : Range) (key : String) (v : RangedValue)
        (es : RVEntries) (path : List String),
      keypaths.contains (String.intercalate "." (path ++ [key])) = true →
      v.get_range.start < key.utf8ByteSize + 3 →
      search_content_by_path keypaths (.Object r (.cons key v es)) path =
        .error subtractOverflow) ∧
    (search_content_by_path ["a"] (.Object ⟨0, 9⟩ (.cons "a" .Null .nil)) [] =
      .error subtractOverflow) := by
  refine ⟨fun keypaths r key v es path hmatch hlt => ?_, by rfl⟩
  show search_entries keypaths (.cons key v es) path = _
  rw [search_entries]
  rw [if_pos (by simp_all), if_pos hlt]
  rfl

/-- Witness for C9: a matched `Null` entry under a different key. -/
theorem search_subtraction_underflow_witness :
    search_content_by_path ["iban"]
        (.Object ⟨0, 12⟩ (.cons "iban" .Null .nil)) [] =
      .error subtractOverflow :=
  search_subtraction_underflow.1 ["iban"] ⟨0, 12⟩ "iban" .Null .nil []
    (by rfl) (by decide)

/-- The header fold of `get_all_ranges_for_keypaths`, generalized over the
accumulator: it appends exactly the ranges of the headers whose name is in
the requested set, in map order. -/
theorem header_ranges_foldl (headers : List (String × RangedHeader))
    (requested : List String) (acc : List Range) :
    headers.foldl
        (fun acc kv =>
          if requested.contains kv.1 then acc ++ [kv.2.range] else acc) acc =
      acc ++ (headers.filter (fun kv => requested.contains kv.1)).map
        (fun kv => kv.2.range) := by
  induction headers generalizing acc with
  | nil => simp
  | cons kv tl ih =>
      by_cases h : requested.contains kv.1 = true
      · rw [List.foldl_cons, if_pos h, ih, List.filter_cons, if_pos h,
          List.map_cons]
        simp
      · rw [List.foldl_cons, if_neg h, ih, List.filter_cons, if_neg h]

/-- C4: `get_all_ranges_for_keypaths` starts with the container's
additional ranges — empty for the trait default and for `Response`, and
unconditionally the request-line range for `Request` — then appends
`header.range` for every header whose name is requested, then the content
search results. -/
theorem get_all_ranges_prefix_structure :
    (∀ (req : Request), req.get_additional_ranges = [req.request_line.range]) ∧
    (∀ (resp : Response), resp.get_additional_ranges = []) ∧
    default_additional_ranges = [] ∧
    (∀ (req : Request) (keypaths headerNames : List String),
      req.get_all_ranges_for_keypaths keypaths headerNames =
        get_all_ranges_for_keypaths [req.request_line.range] req.headers
          req.content keypaths headerNames) ∧
    (∀ (resp : Response) (keypaths headerNames : List String),
      resp.get_all_ranges_for_keypaths keypaths headerNames =
        get_all_ranges_for_keypaths [] resp.headers (some resp.content)
          keypaths headerNames) ∧
    (∀ (headers : List (String × RangedHeader)) (requested : List String),
      header_ranges headers requested =
        (headers.filter (fun kv => requested.contains kv.1)).map
          (fun kv => kv.2.range)) ∧
    (∀ (additional : List Range) (headers : List (String × RangedHeader))
        (keypaths headerNames : List String),
      get_all_ranges_for_keypaths additional headers none keypaths headerNames =
        .ok (additional ++ header_ranges headers headerNames)) ∧
    (∀ (additional : List Range) (headers : List (String × RangedHeader))
        (c : RangedValue) (keypaths headerNames : List String)
        (found : List Range),
      search_content_by_path keypaths c [] = .ok found →
      get_all_ranges_for_keypaths additional headers (some c) keypaths
          headerNames =
        .ok ((additional ++ header_ranges headers headerNames) ++ found)) := by
  refine ⟨fun _ => rfl, fun _ => rfl, rfl, fun _ _ _ => rfl, fun _ _ _ => rfl,
    fun headers requested => header_ranges_foldl headers requested [],
    fun _ _ _ _ => rfl, fun additional headers c keypaths headerNames found h => ?_⟩
  show (search_content_by_path keypaths c []).map
      (fun r => (additional ++ header_ranges headers headerNames) ++ r) = _
  rw [h]
  rfl

/-- Witness for C4 at a concrete request whose body search finds nothing. -/
theorem get_all_ranges_prefix_structure_witness :
    get_all_ranges_for_keypaths [⟨0, 3⟩] [("host", ⟨⟨4, 10⟩, "x"⟩)]
        (some .Null) ["p"] ["host"] =
      .ok (([⟨0, 3⟩] ++ header_ranges [("host", ⟨⟨4, 10⟩, "x"⟩)] ["host"]) ++ []) :=
  get_all_ranges_prefix_structure.2.2.2.2.2.2.2 [⟨0, 3⟩]
    [("host", ⟨⟨4, 10⟩, "x"⟩)] .Null ["p"] ["host"] [] rfl

/-- Defining equations of `parse_entries`, as standalone rewrite lemmas
(hold by reduction). -/
theorem parse_entries_eqs {R : Type} [CommonRule R] (pf : String → Option Float)
    (n : Node R) (tl : NodeList R) (acc : RVEntries) :
    parse_entries pf (.nil : NodeList R) acc = .ok acc ∧
      parse_entries pf (.cons n tl) acc =
        (parse_object_entry pf n).bind
          (fun kv => parse_entries pf tl (insertEntry acc kv.1 kv.2)) :=
  ⟨rfl, rfl⟩

/-- Lookup after insert: the inserted binding wins on its key, every other
key is untouched. -/
theorem entryLookup_insertEntry :
    ∀ (m : RVEntries) (k : String) (v : RangedValue) (k' : String),
      entryLookup (insertEntry m k v) k' =
        if k = k' then some v else entryLookup m k'
  | .nil, k, v, k' => rfl
  | .cons k0 v0 tl, k, v, k' => by
      show entryLookup (if k0 = k then .cons k0 v tl else .cons k0 v0 (insertEntry tl k v)) k' = _
      by_cases h0 : k0 = k
      · subst h0
        by_cases h1 : k0 = k' <;> simp [entryLookup, h1]
      · simp only [if_neg h0]
        show (if k0 = k' then some v0 else entryLookup (insertEntry tl k v) k') = _
        rw [entryLookup_insertEntry tl k v k']
        by_cases h1 : k0 = k' <;> by_cases h2 : k = k' <;> simp_all [entryLookup]

/-- Success of `parse_entries` does not depend on the accumulated map, so
in particular a key collision can never cause an error. -/
theorem parse_entries_isOk {R : Type} [CommonRule R] (pf : String → Option Float) :
    ∀ (ns : NodeList R) (acc acc' : RVEntries),
      exceptIsOk (parse_entries pf ns acc) = exceptIsOk (parse_entries pf ns acc')
  | .nil, _, _ => rfl
  | .cons n tl, acc, acc' => by
      rw [(parse_entries_eqs pf n tl acc).2, (parse_entries_eqs pf n tl acc').2]
      cases h : parse_object_entry pf n
      · rfl
      · exact parse_entries_isOk pf tl _ _

/-- C8: an `Object` node's mapping is built by parsing each child entry in
child order and inserting it into the accumulated map; on duplicate keys
the last write wins, and duplicate keys never cause an error. -/
theorem parse_object_duplicate_keys {R : Type} [CommonRule R]
    (pf : String → Option Float) :
    (∀ (rule : R) (s e : Nat) (text : String) (children : NodeList R),
      CommonRule.rule_type rule = .Object →
      parse_value pf (.mk rule s e text children) =
        (parse_entries pf children .nil).map (fun m => .Object ⟨s, e⟩ m)) ∧
    (∀ (n : Node R) (tl : NodeList R) (acc : RVEntries),
      parse_entries pf (.cons n tl) acc =
        (parse_object_entry pf n).bind
          (fun kv => parse_entries pf tl (insertEntry acc kv.1 kv.2))) ∧
    (∀ (m : RVEntries) (k : String) (v : RangedValue) (k' : String),
      entryLookup (insertEntry m k v) k' =
        if k = k' then some v else entryLookup m k') ∧
    (∀ (ns : NodeList R) (acc acc' : RVEntries),
      exceptIsOk (parse_entries pf ns acc) =
        exceptIsOk (parse_entries pf ns acc')) := by
  refine ⟨fun rule s e text children h => ?_,
    fun n tl acc => (parse_entries_eqs pf n tl acc).2,
    fun m k v k' => entryLookup_insertEntry m k v k',
    fun ns acc acc' => parse_entries_isOk pf ns acc acc'⟩
  rw [parse_value_mk, h]

/-- Witness for C8 at a concrete empty object node, with a duplicate-key
insertion exercising last-write-wins lookup. -/
theorem parse_object_duplicate_keys_witness :
    parse_value (R := ReqRule) (fun _ => none) (.mk .object 0 2 "\x7b\x7d" .nil) =
        (parse_entries (R := ReqRule) (fun _ => none) .nil .nil).map
          (fun m => .Object ⟨0, 2⟩ m) ∧
      entryLookup (insertEntry (.cons "k" .Null .nil) "k" (.Bool ⟨3, 7⟩ true)) "k" =
        some (.Bool ⟨3, 7⟩ true) :=
  ⟨(parse_object_duplicate_keys (R := ReqRule) (fun _ => none)).1 ReqRule.object
      0 2 "\x7b\x7d" .nil rfl,
    by rw [(parse_object_duplicate_keys (R := ReqRule) (fun _ => none)).2.2.1
      (.cons "k" .Null .nil) "k" (.Bool ⟨3, 7⟩ true) "k"]
       simp⟩

/-- The `TryFrom` pair loop of `Request` leaves the threaded content
untouched when no pair is an `object` or `array` rule. -/
theorem request_loop_content_const (pf : String → Option Float) :
    ∀ (pairs : List (Node ReqRule)) (rl : Option RangedHeader)
      (hs : List (String × RangedHeader)) (c : RangedValue)
      (st : Option RangedHeader × List (String × RangedHeader) × RangedValue),
      (∀ p ∈ pairs, p.rule ≠ ReqRule.object ∧ p.rule ≠ ReqRule.array) →
      Request.try_from_loop pf pairs rl hs c = .ok st → st.2.2 = c := by
  intro pairs
  induction pairs with
  | nil =>
      intro rl hs c st _ h
      cases h
      rfl
  | cons p tl ih =>
      intro rl hs c st hno h
      rw [Request.try_from_loop] at h
      cases hr : p.rule
      case object => exact absurd hr (hno p (List.mem_cons_self p tl)).1
      case array => exact absurd hr (hno p (List.mem_cons_self p tl)).2
      case header =>
        rw [hr] at h
        cases hph : parse_header p <;> rw [hph] at h
        · exact Except.noConfusion h
        · exact ih _ _ _ _ (fun q hq => hno q (List.mem_cons_of_mem p hq)) h
      all_goals
        rw [hr] at h
        exact ih _ _ _ _ (fun q hq => hno q (List.mem_cons_of_mem p hq)) h

/-- The `TryFrom` pair loop of `Response` leaves the threaded content
untouched when no pair is an `object` or `array` rule. -/
theorem response_loop_content_const (pf : String → Option Float) :
    ∀ (pairs : List (Node RespRule))
      (hs : List (String × RangedHeader)) (c : RangedValue)
      (st : List (String × RangedHeader) × RangedValue),
      (∀ p ∈ pairs, p.rule ≠ RespRule.object ∧ p.rule ≠ RespRule.array) →
      Response.try_from_loop pf pairs hs c = .ok st → st.2 = c := by
  intro pairs
  induction pairs with
  | nil =>
      intro hs c st _ h
      cases h
      rfl
  | cons p tl ih =>
      intro hs c st hno h
      rw [Response.try_from_loop] at h
      cases hr : p.rule
      case object => exact absurd hr (hno p (List.mem_cons_self p tl)).1
      case array => exact absurd hr (hno p (List.mem_cons_self p tl)).2
      case header =>
        rw [hr] at h
        cases hph : parse_header p <;> rw [hph] at h
        · exact Except.noConfusion h
        · exact ih _ _ _ (fun q hq => hno q (List.mem_cons_of_mem p hq)) h
      all_goals
        rw [hr] at h
        exact ih _ _ _ (fun q hq => hno q (List.mem_cons_of_mem p hq)) h

/-- C10: a successfully constructed `Request` or `Response` never lacks a
body: `Request::try_from` always wraps its content in `Some`, starting
from the default value — the empty `Object` with degenerate range `0..0` —
when the pairs contain no object or array node, and `Response::get_content`
is unconditionally `Some`; so an absent body is indistinguishable from an
empty-object body at the `Searchable` interface. -/
theorem try_from_content_always_some (pf : String → Option Float) :
    (∀ (pairs : List (Node ReqRule)) (req : Request),
      Request.try_from pf pairs = .ok req →
      (Request.get_content req).isSome = true) ∧
    (∀ (pairs : List (Node ReqRule)) (req : Request),
      (∀ p ∈ pairs, p.rule ≠ ReqRule.object ∧ p.rule ≠ ReqRule.array) →
      Request.try_from pf pairs = .ok req →
      Request.get_content req = some RangedValue.default) ∧
    (∀ (resp : Response), (Response.get_content resp).isSome = true) ∧
    (∀ (pairs : List (Node RespRule)) (resp : Response),
      (∀ p ∈ pairs, p.rule ≠ RespRule.object ∧ p.rule ≠ RespRule.array) →
      Response.try_from pf pairs = .ok resp →
      Response.get_content resp = some RangedValue.default) ∧
    RangedValue.default = .Object ⟨0, 0⟩ .nil := by
  refine ⟨fun pairs req h => ?_, fun pairs req hno h => ?_, fun _ => rfl,
    fun pairs resp hno h => ?_, rfl⟩
  · rw [Request.try_from] at h
    cases hl : Request.try_from_loop pf pairs none [] RangedValue.default <;>
      rw [hl] at h
    · exact Except.noConfusion h
    · rename_i st
      obtain ⟨rl1, hs1, c1⟩ := st
      cases rl1
      · exact Except.noConfusion h
      · cases h
        rfl
  · rw [Request.try_from] at h
    cases hl : Request.try_from_loop pf pairs none [] RangedValue.default <;>
      rw [hl] at h
    · exact Except.noConfusion h
    · rename_i st
      have hc := request_loop_content_const pf pairs none [] RangedValue.default
        st hno hl
      obtain ⟨rl1, hs1, c1⟩ := st
      cases rl1
      · exact Except.noConfusion h
      · cases h
        show some c1 = some RangedValue.default
        rw [show c1 = RangedValue.default from hc]
  · rw [Response.try_from] at h
    cases hl : Response.try_from_loop pf pairs [] RangedValue.default <;>
      rw [hl] at h
    · exact Except.noConfusion h
    · rename_i st
      have hc := response_loop_content_const pf pairs [] RangedValue.default
        st hno hl
      obtain ⟨hs1, c1⟩ := st
      cases h
      show some c1 = some RangedValue.default
      rw [show c1 = RangedValue.default from hc]

/-- Witness for C10: converting the single request-line pair yields a
request whose content is the default empty object. -/
theorem try_from_content_always_some_witness :
    Request.get_content ⟨⟨⟨0, 10⟩, "GET / HTTP"⟩, [], some RangedValue.default⟩ =
      some RangedValue.default :=
  (try_from_content_always_some (fun _ => none)).2.1
    [Node.mk ReqRule.request_line 0 10 "GET / HTTP" .nil]
    ⟨⟨⟨0, 10⟩, "GET / HTTP"⟩, [], some RangedValue.default⟩
    (by
      intro p hp
      rw [List.mem_singleton] at hp
      subst hp
      exact ⟨by decide, by decide⟩)
    rfl

/-- Every non-`Null` result of `parse_value` carries exactly the node's
span as its range. -/
theorem parse_value_range {R : Type} [CommonRule R] (pf : String → Option Float)
    (n : Node R) (v : RangedValue) (hok : parse_value pf n = .ok v) :
    v = .Null ∨ v.get_range = ⟨n.start, n.stop⟩ := by
  obtain ⟨rule, s, e, text, children⟩ := n
  rw [parse_value_mk] at hok
  cases h : CommonRule.rule_type rule <;> rw [h] at hok
  case Object =>
    cases hm : parse_entries pf children .nil <;> rw [hm] at hok
    · exact Except.noConfusion hok
    · cases hok
      exact Or.inr rfl
  case Array =>
    cases hm : parse_values pf children <;> rw [hm] at hok
    · exact Except.noConfusion hok
    · cases hok
      exact Or.inr rfl
  case String =>
    cases hok
    exact Or.inr rfl
  case Number =>
    cases hok
    exact Or.inr rfl
  case Boolean =>
    cases hok
    exact Or.inr rfl
  case Null =>
    cases hok
    exact Or.inl rfl
  case Other => exact Except.noConfusion hok

/-- `withinStrict` from explicit bounds (the `Null` case is vacuous). -/
theorem withinStrict_of_bounds (r : Range) (v : RangedValue)
    (h1 : r.start + 1 ≤ v.get_range.start)
    (h2 : v.get_range.stop + 1 ≤ r.stop) : withinStrict r v := by
  cases v <;> first | trivial | exact ⟨h1, h2⟩

/-- `insertEntry` preserves containment of the accumulated map when the
inserted value is itself strictly inside `r` and contained. -/
theorem insertEntry_contained (r : Range) :
    ∀ (m : RVEntries) (k : String) (v : RangedValue),
      RVEntries.ContainedIn r m → withinStrict r v → Containment v →
      RVEntries.ContainedIn r (insertEntry m k v)
  | .nil, _, _, _, hw, hc => ⟨hw, hc, trivial⟩
  | .cons k0 v0 tl, k, v, hm, hw, hc => by
      show RVEntries.ContainedIn r
        (if k0 = k then .cons k0 v tl else .cons k0 v0 (insertEntry tl k v))
      by_cases h : k0 = k
      · rw [if_pos h]
        exact ⟨hw, hc, hm.2.2⟩
      · rw [if_neg h]
        exact ⟨hm.1, hm.2.1, insertEntry_contained r tl k v hm.2.2 hw hc⟩

mutual
/-- Containment of a `parse_value` result, given a well-nested input
node. -/
theorem parse_value_contained {R : Type} [CommonRule R]
    (pf : String → Option Float) :
    ∀ (n : Node R), Node.WellNested n →
      ∀ v, parse_value pf n = .ok v → Containment v
  | .mk rule s e text children => fun hwn v hok => by
      rw [parse_value_mk] at hok
      cases h : CommonRule.rule_type rule <;> rw [h] at hok
      case Object =>
        cases hm : parse_entries pf children .nil <;> rw [hm] at hok
        · exact Except.noConfusion hok
        · cases hok
          exact parse_entries_contained pf children s e .nil hwn trivial _ hm
      case Array =>
        cases hm : parse_values pf children <;> rw [hm] at hok
        · exact Except.noConfusion hok
        · cases hok
          exact parse_values_contained pf children s e hwn _ hm
      case String =>
        cases hok
        trivial
      case Number =>
        cases hok
        trivial
      case Boolean =>
        cases hok
        trivial
      case Null =>
        cases hok
        trivial
      case Other => exact Except.noConfusion hok

/-- Containment of `parse_values` results: every array element sits
strictly inside the enclosing span `s..e`. -/
theorem parse_values_contained {R : Type} [CommonRule R]
    (pf : String → Option Float) :
    ∀ (ns : NodeList R) (s e : Nat), NodeList.WellNestedIn s e ns →
      ∀ vs, parse_values pf ns = .ok vs → RVList.ContainedIn ⟨s, e⟩ vs
  | .nil, s, e => fun _ vs hok => by
      cases hok
      trivial
  | .cons n tl, s, e => fun hwn vs hok => by
      rw [show parse_values pf (.cons n tl) =
        (parse_value pf n).bind (fun v =>
          (parse_values pf tl).bind (fun rest => .ok (.cons v rest)))
        from rfl] at hok
      cases hv : parse_value pf n <;> rw [hv] at hok
      · exact Except.noConfusion hok
      · rename_i v0
        cases hts : parse_values pf tl <;> rw [hts] at hok
        · exact Except.noConfusion hok
        · rename_i vs0
          cases hok
          refine ⟨?_, parse_value_contained pf n hwn.2.1 v0 hv,
            parse_values_contained pf tl s e hwn.2.2 vs0 hts⟩
          rcases parse_value_range pf n v0 hv with hnull | hr
          · subst hnull
            trivial
          · exact withinStrict_of_bounds _ _
              (by rw [hr]; exact hwn.1.1) (by rw [hr]; exact hwn.1.2)

/-- Containment of `parse_entries` results, given a contained
accumulator. -/
theorem parse_entries_contained {R : Type} [CommonRule R]
    (pf : String → Option Float) :
    ∀ (ns : NodeList R) (s e : Nat) (acc : RVEntries),
      NodeList.WellNestedIn s e ns → RVEntries.ContainedIn ⟨s, e⟩ acc →
      ∀ m, parse_entries pf ns acc = .ok m → RVEntries.ContainedIn ⟨s, e⟩ m
  | .nil, s, e, acc => fun _ hacc m hok => by
      cases hok
      exact hacc
  | .cons n tl, s, e, acc => fun hwn hacc m hok => by
      rw [(parse_entries_eqs pf n tl acc).2] at hok
      cases hkv : parse_object_entry pf n <;> rw [hkv] at hok
      · exact Except.noConfusion hok
      · rename_i kv
        have hins := parse_object_entry_contained pf n s e hwn.1.1 hwn.1.2
          hwn.2.1 kv hkv
        exact parse_entries_contained pf tl s e (insertEntry acc kv.1 kv.2)
          hwn.2.2 (insertEntry_contained ⟨s, e⟩ acc kv.1 kv.2 hacc hins.1 hins.2)
          m hok

/-- Containment of a single parsed object entry: its value sits strictly
inside any span `s..e` strictly enclosing the entry node. -/
theorem parse_object_entry_contained {R : Type} [CommonRule R]
    (pf : String → Option Float) :
    ∀ (n : Node R) (s e : Nat),
      s + 1 ≤ n.start → n.stop + 1 ≤ e → Node.WellNested n →
      ∀ kv, parse_object_entry pf n = .ok kv →
        withinStrict ⟨s, e⟩ kv.2 ∧ Containment kv.2
  | .mk _ _ _ _ .nil, _, _ => fun _ _ _ _ hok => Except.noConfusion hok
  | .mk _ _ _ _ (.cons (.mk _ _ _ _ .nil) _), _, _ =>
      fun _ _ _ _ hok => Except.noConfusion hok
  | .mk _ _ _ _ (.cons (.mk _ _ _ _ (.cons _ _)) .nil), _, _ =>
      fun _ _ _ _ hok => Except.noConfusion hok
  | .mk rule ns0 ne0 text
      (.cons (.mk krule ks ke ktext (.cons keyInner kr)) (.cons valueNode vr)),
      s, e => fun hs he hwn kv hok => by
      rw [show parse_object_entry pf (.mk rule ns0 ne0 text
          (.cons (.mk krule ks ke ktext (.cons keyInner kr))
            (.cons valueNode vr))) =
        (parse_value pf valueNode).bind (fun v => .ok (keyInner.text, v))
        from rfl] at hok
      cases hv : parse_value pf valueNode <;> rw [hv] at hok
      · exact Except.noConfusion hok
      · rename_i v0
        cases hok
        have hs' : s + 1 ≤ ns0 := hs
        have he' : ne0 + 1 ≤ e := he
        obtain ⟨hb1, hb2⟩ : ns0 + 1 ≤ valueNode.start ∧
            valueNode.stop + 1 ≤ ne0 := hwn.2.2.1
        constructor
        · rcases parse_value_range pf valueNode v0 hv with hnull | hr
          · subst hnull
            trivial
          · exact withinStrict_of_bounds _ _
              (by rw [hr]; show s + 1 ≤ valueNode.start; omega)
              (by rw [hr]; show valueNode.stop + 1 ≤ e; omega)
        · exact parse_value_contained pf valueNode hwn.2.2.2.1 v0 hv
end

/-- C3: every `RangedValue` tree built by `parse_value` from a well-nested
parse tree (the grammar collaborator's guarantee) satisfies containment:
children of `Array`/`Object` nodes are strictly nested inside their
parent's range, recursively — and strict nesting entails the weak bounds
`p.range.start ≤ v.range.start` and `v.range.end ≤ p.range.end` for every
non-`Null` child. -/
theorem parse_value_containment {R : Type} [CommonRule R]
    (pf : String → Option Float) (n : Node R) (hwn : Node.WellNested n)
    (v : RangedValue) (hok : parse_value pf n = .ok v) :
    Containment v ∧
      (∀ (r : Range) (w : RangedValue), w ≠ .Null → withinStrict r w →
        r.start ≤ w.get_range.start ∧ w.get_range.stop ≤ r.stop) :=
  ⟨parse_value_contained pf n hwn v hok, fun r w hne hw => by
    cases w
    · exact absurd rfl hne
    all_goals
      obtain ⟨h1, h2⟩ := hw
      exact ⟨by omega, by omega⟩⟩

/-- Witness for C3 on a concrete well-nested object node
`\x7b"k": 42\x7d` spanning `0..10` with the entry value spanning `6..8`. -/
theorem parse_value_containment_witness :
    Containment (.Object ⟨0, 10⟩ (.cons "k" (.Number ⟨6, 8⟩ 0) .nil)) :=
  (parse_value_containment (fun _ => none)
    (Node.mk ReqRule.object 0 10 "\x7b\x22k\x22: 42\x7d"
      (.cons (Node.mk ReqRule.other 1 9 "\x22k\x22: 42"
        (.cons (Node.mk ReqRule.string 2 5 "\x22k\x22"
          (.cons (Node.mk ReqRule.other 3 4 "k" .nil) .nil))
          (.cons (Node.mk ReqRule.number 6 8 "42" .nil) .nil))) .nil))
    ⟨⟨by decide, by decide⟩,
      ⟨⟨by decide, by decide⟩,
        ⟨⟨by decide, by decide⟩, trivial, trivial⟩,
        ⟨⟨by decide, by decide⟩, trivial, trivial⟩⟩,
      trivial⟩
    (.Object ⟨0, 10⟩ (.cons "k" (.Number ⟨6, 8⟩ 0) .nil)) (by rfl)).1

end TlsnRevolut
